import Mathlib

/-!
# Verification of `derive-error-kind` (src/src/lib.rs)

A shallow embedding of the `ErrorKind` derive macro. The macro inspects a
`syn::DeriveInput` (an enum declaration with `#[error_kind(...)]` attributes
on the enum and on each variant) and emits an inherent method
`pub fn kind(&self) -> KindEnum` whose body is a match over the variants.

The embedding has three layers:

* a syntax model of the parts of `syn` the macro consumes
  (`NestedMeta`, `AttrMeta`, `Attribute`, `Fields`, `Variant`, `Data`,
  `DeriveInput`);
* the macro itself (`find_attribute`, `get_kind_ty`, `parseArgs`,
  `readVariant`, `buildPlan`, `genArm`, `mkArms`, `error_kind_macro`),
  translated function-by-function from `src/src/lib.rs`; Rust panics become
  `Except.error` carrying the source's panic message;
* a runtime semantics (`RValue`, `kindOf`) for the generated method: the
  emitted match tries the arms in order, a `transparent` arm
  `Self::V(inner) => inner.kind()` re-invokes `kind` on the wrapped value.
-/

namespace DeriveErrorKind

/-- One element of the parenthesized argument list of an attribute, after
`syn::parse_meta`. The macro only distinguishes `NestedMeta::Meta(Meta::Path)`
(a path such as `ErrorType` or `transparent`) from every other shape
(`NestedMeta::Lit`, `Meta::List`, `Meta::NameValue`), which we collapse into
`notPath`. A path is kept abstract as its printed form. -/
inductive NestedMeta where
  | path (p : String)
  | notPath
deriving DecidableEq, Repr

/-- Whether a `NestedMeta` is a bare path. -/
def NestedMeta.isPath : NestedMeta → Bool
  | .path _ => true
  | .notPath => false

/-- Result of `attr.parse_meta()` as the macro consumes it: either a
`Meta::List` with its nested arguments, or anything else (`Meta::Path`,
`Meta::NameValue`, or a parse error), which we collapse into `notList`. -/
inductive AttrMeta where
  | list (args : List NestedMeta)
  | notList
deriving DecidableEq, Repr

/-- An attribute: its path (e.g. `error_kind`) and its parsed meta. -/
structure Attribute where
  name : String
  meta : AttrMeta
deriving DecidableEq, Repr

/-- The field shape of an enum variant (`syn::Fields`). -/
inductive Fields where
  | unit
  | named
  | unnamed (n : Nat)
deriving DecidableEq, Repr

/-- An enum variant: identifier, attached attributes, field shape. -/
structure Variant where
  ident : String
  attrs : List Attribute
  fields : Fields
deriving DecidableEq, Repr

/-- The data of a `DeriveInput` (`syn::Data`): an enum with its variants,
or a struct, or a union. -/
inductive Data where
  | enumData (variants : List Variant)
  | structData
  | unionData
deriving DecidableEq, Repr

/-- Whether the input data is an enum. -/
def Data.isEnum : Data → Bool
  | .enumData _ => true
  | _ => false

/-- The macro input (`syn::DeriveInput`): type name, outer attributes, data. -/
structure DeriveInput where
  ident : String
  attrs : List Attribute
  data : Data
deriving DecidableEq, Repr

/-- One entry of the variant plan: the tuple
`(ident, enum_ty, Option variant)` pushed onto `kind_variants` in the source.
`kindVariant = some w` is a `Direct` resolution (`#[error_kind(K, W)]`);
`kindVariant = none` is a `Delegate` resolution (`#[error_kind(transparent)]`),
whose `enumTy` was filled with the top-level kind type. -/
structure PlanEntry where
  ident : String
  enumTy : String
  kindVariant : Option String
deriving DecidableEq, Repr

/-- One arm of the generated `match self`:
* `unitArm i k v?`: `Self::i => k::v,` (for a unit variant);
* `namedArm i k v?`: `Self::i{..} => k::v,` (named fields);
* `unnamedDirect i k v`: `Self::i(..) => k::v,` (unnamed fields, `Direct`);
* `unnamedDelegate i`: `Self::i(inner) => inner.kind(),` (unnamed,
  `Delegate`).
In the first two shapes the kind variant is an `Option` because the source
interpolates `#enum_ty::#variant` with `variant : Option<Path>`; when it is
`None` (a `transparent` annotation on a unit or named variant) the emitted
tokens `k::` are malformed and the generated code does not compile. -/
inductive MatchArm where
  | unitArm (ident enumTy : String) (variant : Option String)
  | namedArm (ident enumTy : String) (variant : Option String)
  | unnamedDirect (ident enumTy variant : String)
  | unnamedDelegate (ident : String)
deriving DecidableEq, Repr

/-- The variant identifier an arm's pattern matches on. -/
def MatchArm.matchIdent : MatchArm → String
  | .unitArm i _ _ => i
  | .namedArm i _ _ => i
  | .unnamedDirect i _ _ => i
  | .unnamedDelegate i => i

/-- The macro output: `impl name { pub fn kind(&self) -> retTy { match self
{ arms } } }`. -/
structure GenOutput where
  name : String
  retTy : String
  arms : List MatchArm
deriving DecidableEq, Repr

/-- Embedding of `find_attribute` from the source: scan the input's outer attributes in
order and return the nested argument list of the first one that parses as a
`Meta::List` whose path is `name`. Attributes of any other meta shape are
skipped (`_ => continue`), even when their path is `name`. -/
def find_attribute (definition : DeriveInput) (name : String) :
    Option (List NestedMeta) :=
  definition.attrs.findSome? fun attr =>
    match attr.meta with
    | .list args => if attr.name == name then some args else none
    | .notList => none

/-- Embedding of `get_kind_ty` from the source: the top-level `#[error_kind(...)]`
argument list must exist, and its first element must be a path, which
becomes the kind type. Only `metas.iter().next()` is inspected: arguments
after the first are never looked at. -/
def get_kind_ty (input : DeriveInput) : Except String String :=
  match find_attribute input "error_kind" with
  | none => .error "#[derive(ErrorKind)] requires error_kind attribute"
  | some metas =>
    match metas.head? with
    | some (.path p) => .ok p
    | _ => .error "#[error_kind(KIND_IDENT)] attribute requires and identifier"

/-- The argument-list dispatch inside the variant loop of `error_kind_macro`:
* two arguments, both paths: push `(ident, enum_ty, Some(variant))`;
* two arguments, otherwise: panic "Invalid value for error_kind";
* one argument that is the path `transparent`: push `(ident, kind_ty, None)`;
* one argument that is a path other than `transparent`: push nothing
  (the variant is silently dropped from the plan);
* one argument that is not a path: panic "Invalid value for #[error_kind]";
* any other count: panic "error_kind must have one two arguments". -/
def parseArgs (kind_ty ident : String) :
    List NestedMeta → Except String (Option PlanEntry)
  | [.path enumTy, .path w] => .ok (some ⟨ident, enumTy, some w⟩)
  | [_, _] => .error "Invalid value for error_kind"
  | [.path p] =>
    if p == "transparent" then .ok (some ⟨ident, kind_ty, none⟩) else .ok none
  | [_] => .error "Invalid value for #[error_kind]"
  | _ => .error "error_kind must have one two arguments"

/-- The per-variant body of the loop in `error_kind_macro`: find the first
attribute whose path is `error_kind` (panic if none), require it to parse as
a `Meta::List` (panic otherwise), then dispatch on its arguments. -/
def readVariant (kind_ty : String) (v : Variant) :
    Except String (Option PlanEntry) :=
  match v.attrs.find? (fun attr => attr.name == "error_kind") with
  | none => .error "Enum variants must have the attribute `error_kind`"
  | some attr =>
    match attr.meta with
    | .list args => parseArgs kind_ty v.ident args
    | .notList => .error "Error parsing meta"

/-- The variant loop of `error_kind_macro`: visit the variants in declaration
order, accumulating the plan entries of the variants that produce one; the
first panicking variant aborts the whole loop. -/
def buildPlan (kind_ty : String) : List Variant → Except String (List PlanEntry)
  | [] => .ok []
  | v :: rest =>
    match readVariant kind_ty v with
    | .error e => .error e
    | .ok entry? =>
      match buildPlan kind_ty rest with
      | .error e => .error e
      | .ok restPlan =>
        match entry? with
        | some entry => .ok (entry :: restPlan)
        | none => .ok restPlan

/-- The match-arm generation rule of the source (`match fields { ... }`),
a pure function of the variant's field shape and its plan entry. -/
def genArm (fields : Fields) (e : PlanEntry) : MatchArm :=
  match fields with
  | .unit => .unitArm e.ident e.enumTy e.kindVariant
  | .named => .namedArm e.ident e.enumTy e.kindVariant
  | .unnamed _ =>
    match e.kindVariant with
    | some w => .unnamedDirect e.ident e.enumTy w
    | none => .unnamedDelegate e.ident

/-- The `match_arms` map of the source: for each plan entry, look up the
field shape of the variant with that identifier in the original variant
list (`variants.iter().find(...).unwrap()`) and generate its arm. -/
def mkArms (variants : List Variant) :
    List PlanEntry → Except String (List MatchArm)
  | [] => .ok []
  | e :: rest =>
    match variants.find? (fun v => v.ident == e.ident) with
    | none => .error "called `Option::unwrap()` on a `None` value"
    | some v =>
      match mkArms variants rest with
      | .error err => .error err
      | .ok restArms => .ok (genArm v.fields e :: restArms)

/-- Embedding of `error_kind_macro` from the source, with each `panic!`/`expect` turned
into an `Except.error` carrying the panic message, in the source's
evaluation order: `get_kind_ty` first, then the enum check, then the
variant loop, then the first-plan-entry lookup (`.first().expect(...)`)
that fixes the return type, then the arm generation. -/
def error_kind_macro (input : DeriveInput) : Except String GenOutput :=
  match get_kind_ty input with
  | .error e => .error e
  | .ok kind_ty =>
    match input.data with
    | .enumData variants =>
      match buildPlan kind_ty variants with
      | .error e => .error e
      | .ok kind_variants =>
        match kind_variants.head? with
        | none => .error "No variants in Enum"
        | some first =>
          match mkArms variants kind_variants with
          | .error e => .error e
          | .ok arms => .ok ⟨input.ident, first.enumTy, arms⟩
    | _ => .error "ImplKind just can be used in enums"

/-- Whether an `Except` is a success. -/
def isOkE {α : Type} : Except String α → Bool
  | .ok _ => true
  | .error _ => false

/-! ## Runtime semantics of the generated method

A runtime value of an annotated enum is its type name, the name of the
variant it was constructed as, and the list of values stored in its fields
(in declaration order; empty for a unit variant). A program is a list of
generated `kind` implementations keyed by type name, so that a `transparent`
arm can re-invoke `kind` on the wrapped value of another annotated type. -/

/-- A runtime enum value: type name, constructed variant, field values. -/
inductive RValue where
  | mk (ty : String) (variantName : String) (args : List RValue)

/-- A kind value `K::V`, the result of the generated method. -/
abbrev KindVal := String × String

/-- The generated `kind` implementations in scope, keyed by type name. -/
abbrev Prog := List (String × GenOutput)

/-- Look up the generated implementation for a type. -/
def lookupImpl (prog : Prog) (ty : String) : Option GenOutput :=
  (prog.find? (fun p => p.1 == ty)).map (fun p => p.2)

/-- Evaluate one arm's right-hand side on the matched value's fields.
`recElem` evaluates `inner.kind()` for the delegate arm. A direct arm with
`variant = none` is the malformed `K::` token stream, which never yields a
value; a delegate arm's pattern `Self::V(inner)` binds exactly one field. -/
def evalArm (arm : MatchArm) (args : List RValue)
    (recElem : RValue → Option KindVal) : Option KindVal :=
  match arm with
  | .unitArm _ k w? => w?.map fun w => (k, w)
  | .namedArm _ k w? => w?.map fun w => (k, w)
  | .unnamedDirect _ k w => some (k, w)
  | .unnamedDelegate _ =>
    match args with
    | [inner] => recElem inner
    | _ => none

/-- Run the generated match: try the arms in order, the first one whose
pattern names the constructed variant fires. -/
def evalArms (arms : List MatchArm) (vname : String) (args : List RValue)
    (recElem : RValue → Option KindVal) : Option KindVal :=
  match arms with
  | [] => none
  | arm :: rest =>
    if arm.matchIdent == vname then evalArm arm args recElem
    else evalArms rest vname args recElem

/-- Evaluate `value.kind()` under a program of generated implementations,
with fuel bounding the delegation depth. -/
def kindOf (prog : Prog) : Nat → RValue → Option KindVal
  | 0, _ => none
  | n + 1, .mk ty vname args =>
    match lookupImpl prog ty with
    | none => none
    | some g => evalArms g.arms vname args (kindOf prog n)

/-! ## Inversion and computation lemmas for the reader -/

theorem parseArgs_direct (kty i K W : String) :
    parseArgs kty i [.path K, .path W] = .ok (some ⟨i, K, some W⟩) := rfl

theorem parseArgs_transparent (kty i : String) :
    parseArgs kty i [.path "transparent"] = .ok (some ⟨i, kty, none⟩) := rfl

theorem parseArgs_dropped (kty i p : String) (hp : p ≠ "transparent") :
    parseArgs kty i [.path p] = .ok none := by
  simp [parseArgs, hp]

theorem parseArgs_some_inv {kty i : String} {args : List NestedMeta}
    {e : PlanEntry} (h : parseArgs kty i args = .ok (some e)) :
    e.ident = i ∧ (e.kindVariant = none → e.enumTy = kty) := by
  rcases args with _ | ⟨a, _ | ⟨b, _ | ⟨c, rest⟩⟩⟩
  · exact Except.noConfusion h
  · rcases a with p | _
    · by_cases hp : p = "transparent"
      · subst hp
        rw [parseArgs_transparent] at h
        cases h
        exact ⟨rfl, fun _ => rfl⟩
      · rw [parseArgs_dropped kty i p hp] at h
        cases h
    · exact Except.noConfusion h
  · rcases a with pa | _ <;> rcases b with pb | _
    · rw [parseArgs_direct] at h
      cases h
      exact ⟨rfl, by simp⟩
    · exact Except.noConfusion h
    · exact Except.noConfusion h
    · exact Except.noConfusion h
  · rcases a with pa | _ <;> rcases b with pb | _ <;> exact Except.noConfusion h

theorem readVariant_direct {v : Variant} {attr : Attribute} (kty K W : String)
    (hfind : v.attrs.find? (fun a => a.name == "error_kind") = some attr)
    (hmeta : attr.meta = .list [.path K, .path W]) :
    readVariant kty v = .ok (some ⟨v.ident, K, some W⟩) := by
  simp only [readVariant, hfind, hmeta]
  rfl

theorem readVariant_transparent {v : Variant} {attr : Attribute} (kty : String)
    (hfind : v.attrs.find? (fun a => a.name == "error_kind") = some attr)
    (hmeta : attr.meta = .list [.path "transparent"]) :
    readVariant kty v = .ok (some ⟨v.ident, kty, none⟩) := by
  simp only [readVariant, hfind, hmeta]
  rfl

theorem readVariant_dropped {v : Variant} {attr : Attribute} (kty p : String)
    (hfind : v.attrs.find? (fun a => a.name == "error_kind") = some attr)
    (hmeta : attr.meta = .list [.path p]) (hp : p ≠ "transparent") :
    readVariant kty v = .ok none := by
  simp only [readVariant, hfind, hmeta]
  exact parseArgs_dropped kty v.ident p hp

theorem readVariant_some_inv {kty : String} {v : Variant} {e : PlanEntry}
    (h : readVariant kty v = .ok (some e)) :
    e.ident = v.ident ∧ (e.kindVariant = none → e.enumTy = kty) := by
  simp only [readVariant] at h
  rcases hf : v.attrs.find? (fun a => a.name == "error_kind") with _ | attr
  · simp only [hf] at h
    exact Except.noConfusion h
  · simp only [hf] at h
    rcases hm : attr.meta with args | _
    · simp only [hm] at h
      exact parseArgs_some_inv h
    · simp only [hm] at h
      exact Except.noConfusion h

/-! ## Lemmas about `buildPlan` -/

theorem buildPlan_not_ok_of_mem {kty : String} {vs : List Variant}
    {v : Variant} (hv : v ∈ vs)
    (hfail : isOkE (readVariant kty v) = false) :
    isOkE (buildPlan kty vs) = false := by
  induction vs with
  | nil => cases hv
  | cons w rest ih =>
    rcases List.mem_cons.mp hv with rfl | hmem
    · rcases hw : readVariant kty v with s | e?
      · simp only [buildPlan, hw, isOkE]
      · rw [hw] at hfail
        exact absurd hfail (by simp [isOkE])
    · rcases hw : readVariant kty w with s | e?
      · simp only [buildPlan, hw, isOkE]
      · have hr := ih hmem
        rcases hrest : buildPlan kty rest with s | restPlan
        · simp only [buildPlan, hw, hrest, isOkE]
        · rw [hrest] at hr
          exact absurd hr (by simp [isOkE])

theorem buildPlan_mem_inv {kty : String} {vs : List Variant}
    {plan : List PlanEntry} (hplan : buildPlan kty vs = .ok plan) :
    ∀ e ∈ plan, ∃ u ∈ vs, readVariant kty u = .ok (some e) := by
  induction vs generalizing plan with
  | nil =>
    simp only [buildPlan] at hplan
    cases hplan
    intro e he
    cases he
  | cons w rest ih =>
    simp only [buildPlan] at hplan
    rcases hw : readVariant kty w with s | e? <;> simp only [hw] at hplan
    · exact Except.noConfusion hplan
    · rcases hrest : buildPlan kty rest with s | restPlan <;>
        simp only [hrest] at hplan
      · exact Except.noConfusion hplan
      · rcases e? with _ | entry
        · cases hplan
          intro e he
          obtain ⟨u, hu, hr⟩ := ih hrest e he
          exact ⟨u, List.mem_cons_of_mem _ hu, hr⟩
        · cases hplan
          intro e he
          rcases List.mem_cons.mp he with rfl | hmem
          · exact ⟨w, List.mem_cons_self _ _, hw⟩
          · obtain ⟨u, hu, hr⟩ := ih hrest e hmem
            exact ⟨u, List.mem_cons_of_mem _ hu, hr⟩

theorem buildPlan_ident_mem {kty : String} {vs : List Variant}
    {plan : List PlanEntry} (hplan : buildPlan kty vs = .ok plan) :
    ∀ e ∈ plan, e.ident ∈ vs.map (fun v => v.ident) := by
  intro e he
  obtain ⟨u, hu, hr⟩ := buildPlan_mem_inv hplan e he
  rw [(readVariant_some_inv hr).1]
  exact List.mem_map_of_mem _ hu

theorem buildPlan_delegate_enumTy {kty : String} {vs : List Variant}
    {plan : List PlanEntry} (hplan : buildPlan kty vs = .ok plan) :
    ∀ e ∈ plan, e.kindVariant = none → e.enumTy = kty := by
  intro e he hd
  obtain ⟨u, _, hr⟩ := buildPlan_mem_inv hplan e he
  exact (readVariant_some_inv hr).2 hd

/-! ## Lemmas about `mkArms` and the generated arms -/

theorem genArm_matchIdent (f : Fields) (e : PlanEntry) :
    (genArm f e).matchIdent = e.ident := by
  rcases f with _ | _ | n
  · rfl
  · rfl
  · rcases hk : e.kindVariant with _ | w <;> simp [genArm, hk, MatchArm.matchIdent]

theorem mkArms_skip_head {w : Variant} {rest : List Variant}
    {plan : List PlanEntry}
    (hne : ∀ e ∈ plan, e.ident ≠ w.ident) :
    mkArms (w :: rest) plan = mkArms rest plan := by
  induction plan with
  | nil => rfl
  | cons e plan' ih =>
    have hwne : (w.ident == e.ident) = false := by
      simp only [beq_eq_false_iff_ne, ne_eq]
      intro hcontra
      exact hne e (List.mem_cons_self _ _) hcontra.symm
    simp only [mkArms, List.find?, hwne,
      ih (fun e' he' => hne e' (List.mem_cons_of_mem _ he'))]

theorem mkArms_mem_ident {vs : List Variant} {plan : List PlanEntry}
    {arms : List MatchArm} (harms : mkArms vs plan = .ok arms) :
    ∀ a ∈ arms, ∃ e ∈ plan, a.matchIdent = e.ident := by
  induction plan generalizing arms with
  | nil =>
    cases harms
    intro a ha
    cases ha
  | cons e plan' ih =>
    simp only [mkArms] at harms
    rcases hfind : vs.find? (fun v => v.ident == e.ident) with _ | v <;>
      simp only [hfind] at harms
    · exact Except.noConfusion harms
    · rcases hrest : mkArms vs plan' with s | restArms <;>
        simp only [hrest] at harms
      · exact Except.noConfusion harms
      · cases harms
        intro a ha
        rcases List.mem_cons.mp ha with rfl | hmem
        · exact ⟨e, List.mem_cons_self _ _, genArm_matchIdent _ _⟩
        · obtain ⟨e', he', hid⟩ := ih hrest a hmem
          exact ⟨e', List.mem_cons_of_mem _ he', hid⟩

/-! ## The generated match reaches the arm of the annotated variant -/

theorem evalArms_of_entry {kty : String} {vs : List Variant}
    {plan : List PlanEntry} {arms : List MatchArm} {v : Variant} {e : PlanEntry}
    (hplan : buildPlan kty vs = .ok plan)
    (harms : mkArms vs plan = .ok arms)
    (hnd : (vs.map (fun u => u.ident)).Nodup)
    (hv : v ∈ vs)
    (hread : readVariant kty v = .ok (some e)) :
    ∀ (args : List RValue) (recElem : RValue → Option KindVal),
      evalArms arms v.ident args recElem
        = evalArm (genArm v.fields e) args recElem := by
  induction vs generalizing plan arms with
  | nil => cases hv
  | cons w rest ih =>
    simp only [buildPlan] at hplan
    rcases hw : readVariant kty w with s | ow <;> simp only [hw] at hplan
    · exact Except.noConfusion hplan
    rcases hrest : buildPlan kty rest with s | planR <;>
      simp only [hrest] at hplan
    · exact Except.noConfusion hplan
    have hndr : (rest.map (fun u => u.ident)).Nodup :=
      (List.nodup_cons.mp (by simpa using hnd)).2
    have hwnotin : w.ident ∉ rest.map (fun u => u.ident) :=
      (List.nodup_cons.mp (by simpa using hnd)).1
    have hplanIds := buildPlan_ident_mem hrest
    have hskip : mkArms (w :: rest) planR = mkArms rest planR :=
      mkArms_skip_head (fun e' he' hcontra => hwnotin (hcontra ▸ hplanIds e' he'))
    rcases List.mem_cons.mp hv with rfl | hmem
    · have hident : e.ident = v.ident := (readVariant_some_inv hread).1
      rw [hw] at hread
      injection hread with hread
      subst hread
      cases hplan
      have htrue : (v.ident == e.ident) = true := by
        rw [hident]
        exact beq_self_eq_true _
      simp only [mkArms, List.find?, htrue] at harms
      rcases harm2 : mkArms (v :: rest) planR with s | armsR <;>
        simp only [harm2] at harms
      · exact Except.noConfusion harms
      · cases harms
        intro args recElem
        have hfire : ((genArm v.fields e).matchIdent == v.ident) = true := by
          rw [genArm_matchIdent, hident]
          exact beq_self_eq_true _
        simp [evalArms, hfire]
    · have hvne : v.ident ≠ w.ident := by
        intro hcontra
        exact hwnotin (hcontra ▸ List.mem_map_of_mem _ hmem)
      rcases ow with _ | o
      · cases hplan
        rw [hskip] at harms
        exact ih hrest harms hndr hmem
      · cases hplan
        have hoid : o.ident = w.ident := (readVariant_some_inv hw).1
        have htrue : (w.ident == o.ident) = true := by
          rw [hoid]
          exact beq_self_eq_true _
        simp only [mkArms, List.find?, htrue] at harms
        rcases harm2 : mkArms (w :: rest) planR with s | armsR <;>
          simp only [harm2] at harms
        · exact Except.noConfusion harms
        · cases harms
          intro args recElem
          have hno : ((genArm w.fields o).matchIdent == v.ident) = false := by
            rw [genArm_matchIdent, hoid]
            exact beq_eq_false_iff_ne.mpr (fun hh => hvne hh.symm)
          rw [hskip] at harm2
          simp only [evalArms, hno, Bool.false_eq_true, if_false]
          exact ih hrest harm2 hndr hmem args recElem

/-! ## Decomposition of a successful macro run, and failure propagation -/

theorem macro_ok_parts {input : DeriveInput} {g : GenOutput}
    (h : error_kind_macro input = .ok g) :
    ∃ kty vs plan e,
      get_kind_ty input = .ok kty ∧ input.data = .enumData vs ∧
      buildPlan kty vs = .ok plan ∧ plan.head? = some e ∧
      mkArms vs plan = .ok g.arms ∧ g.name = input.ident ∧
      g.retTy = e.enumTy := by
  simp only [ error_kind_macro] at h
  rcases hk : get_kind_ty input with s | kty <;> simp only [hk] at h
  · exact Except.noConfusion h
  rcases hd : input.data with vs | _ | _ <;> simp only [hd] at h
  · rcases hp : buildPlan kty vs with s | plan <;> simp only [hp] at h
    · exact Except.noConfusion h
    rcases hh : plan.head? with _ | e <;> simp only [hh] at h
    · exact Except.noConfusion h
    rcases ha : mkArms vs plan with s | arms <;> simp only [ha] at h
    · exact Except.noConfusion h
    cases h
    exact ⟨kty, vs, plan, e, rfl, rfl, hp, hh, ha, rfl, rfl⟩
  · exact Except.noConfusion h
  · exact Except.noConfusion h

theorem macro_error_of_get_kind_ty {input : DeriveInput} {s : String}
    (h : get_kind_ty input = .error s) :
    error_kind_macro input = .error s := by
  simp only [ error_kind_macro, h]

theorem macro_not_ok_of_buildPlan {input : DeriveInput} {vs : List Variant}
    (hd : input.data = .enumData vs)
    (h : ∀ kty, isOkE (buildPlan kty vs) = false) :
    isOkE ( error_kind_macro input) = false := by
  rcases hk : get_kind_ty input with s | kty
  · rw [macro_error_of_get_kind_ty hk]
    rfl
  · simp only [ error_kind_macro, hk, hd]
    rcases hp : buildPlan kty vs with s | plan <;> simp only [hp]
    · rfl
    · have hko := h kty
      rw [hp] at hko
      exact absurd hko (by simp [isOkE])

theorem parseArgs_not_ok_of_bad {kty i : String} {args : List NestedMeta}
    (hbad : (args.length ≠ 1 ∧ args.length ≠ 2) ∨
      ∃ a b, args = [a, b] ∧ (a.isPath = false ∨ b.isPath = false)) :
    isOkE (parseArgs kty i args) = false := by
  rcases hbad with ⟨h1, h2⟩ | ⟨a, b, rfl, hab⟩
  · rcases args with _ | ⟨a, _ | ⟨b, _ | ⟨c, rest⟩⟩⟩
    · rfl
    · exact absurd rfl h1
    · exact absurd rfl h2
    · rcases a with pa | _ <;> rcases b with pb | _ <;> rfl
  · rcases a with pa | _ <;> rcases b with pb | _
    · rcases hab with h | h <;> simp [NestedMeta.isPath] at h
    · rfl
    · rfl
    · rfl

theorem find?_append_some {α : Type} {p : α → Bool} {l₁ l₂ : List α} {x : α}
    (h : l₁.find? p = some x) : (l₁ ++ l₂).find? p = some x := by
  induction l₁ with
  | nil => exact absurd h (by simp)
  | cons a rest ih =>
    rw [List.cons_append]
    rcases hpa : p a with _ | _
    · simp only [List.find?, hpa] at h ⊢
      exact ih h
    · simp only [List.find?, hpa] at h ⊢
      exact h

theorem findSome?_append_some {α β : Type} {f : α → Option β} {l₁ l₂ : List α}
    {y : β} (h : l₁.findSome? f = some y) :
    (l₁ ++ l₂).findSome? f = some y := by
  induction l₁ with
  | nil => exact absurd h (by simp)
  | cons a rest ih =>
    rw [List.cons_append]
    rw [List.findSome?_cons] at h ⊢
    rcases hfa : f a with _ | m
    · rw [hfa] at h
      exact ih h
    · rw [hfa] at h
      exact h

theorem readVariant_missing {v : Variant} (kty : String)
    (hfind : v.attrs.find? (fun a => a.name == "error_kind") = none) :
    readVariant kty v
      = .error "Enum variants must have the attribute `error_kind`" := by
  simp only [readVariant, hfind]

/-! ## Concrete declarations used by witnesses and counterexamples -/

/-- An `#[error_kind(...)]` attribute with the given argument list. -/
def errorKindAttr (args : List NestedMeta) : Attribute :=
  ⟨"error_kind", .list args⟩

/-- Variant `Poisoned` of the doc example `CacheError`. -/
def vPoisoned : Variant :=
  ⟨"Poisoned", [errorKindAttr [.path "ErrorType", .path "A"]], .unit⟩

/-- Variant `Missing` of the doc example `CacheError`. -/
def vMissing : Variant :=
  ⟨"Missing", [errorKindAttr [.path "ErrorType", .path "B"]], .unit⟩

/-- Variant `Cache(CacheError)` of the doc example `ServiceError`. -/
def vCache : Variant :=
  ⟨"Cache", [errorKindAttr [.path "transparent"]], .unnamed 1⟩

/-- Variant `Db` of the doc example `ServiceError`. -/
def vDb : Variant :=
  ⟨"Db", [errorKindAttr [.path "ErrorType", .path "C"]], .unit⟩

/-- The doc example `CacheError` enum. -/
def cacheInput : DeriveInput :=
  ⟨"CacheError", [errorKindAttr [.path "ErrorType"]],
    .enumData [vPoisoned, vMissing]⟩

/-- The doc example `ServiceError` enum. -/
def serviceInput : DeriveInput :=
  ⟨"ServiceError", [errorKindAttr [.path "ErrorType"]],
    .enumData [vCache, vDb]⟩

/-- Generated implementation for `CacheError`. -/
def gCache : GenOutput :=
  ⟨"CacheError", "ErrorType",
    [.unitArm "Poisoned" "ErrorType" (some "A"),
     .unitArm "Missing" "ErrorType" (some "B")]⟩

/-- Generated implementation for `ServiceError`. -/
def gService : GenOutput :=
  ⟨"ServiceError", "ErrorType",
    [.unnamedDelegate "Cache", .unitArm "Db" "ErrorType" (some "C")]⟩

/-- The two generated implementations in scope together. -/
def svcProg : Prog := [("CacheError", gCache), ("ServiceError", gService)]

/-- Variant `ResourceNotFound` of the crate-documentation example. -/
def vResourceNotFound : Variant :=
  ⟨"ResourceNotFound", [errorKindAttr [.path "ErrorKind", .path "NotFound"]],
    .unit⟩

/-- Variant `BadRequest` carrying named fields. -/
def vBadRequest : Variant :=
  ⟨"BadRequest", [errorKindAttr [.path "ErrorKind", .path "InvalidInput"]],
    .named⟩

/-- Variant `ServerError(String)` with one unnamed field. -/
def vServerError : Variant :=
  ⟨"ServerError", [errorKindAttr [.path "ErrorKind", .path "InternalError"]],
    .unnamed 1⟩

/-- The crate-documentation example `MyError`, with all three field shapes. -/
def myErrorInput : DeriveInput :=
  ⟨"MyError", [errorKindAttr [.path "ErrorKind"]],
    .enumData [vResourceNotFound, vBadRequest, vServerError]⟩

/-- Generated implementation for `MyError`. -/
def gMyError : GenOutput :=
  ⟨"MyError", "ErrorKind",
    [.unitArm "ResourceNotFound" "ErrorKind" (some "NotFound"),
     .namedArm "BadRequest" "ErrorKind" (some "InvalidInput"),
     .unnamedDirect "ServerError" "ErrorKind" "InternalError"]⟩

/-- An enum whose top-level annotation has two arguments. -/
def c3TwoArgInput : DeriveInput :=
  ⟨"Foo", [errorKindAttr [.path "K", .path "K2"]],
    .enumData [⟨"V", [errorKindAttr [.path "K", .path "A"]], .unit⟩]⟩

/-- No `error_kind` attribute at the top level at all. -/
def c3w1 : DeriveInput := ⟨"T1", [⟨"other", .list []⟩], .enumData []⟩

/-- A top-level `error_kind` attribute with zero arguments. -/
def c3w2 : DeriveInput := ⟨"T2", [errorKindAttr []], .enumData []⟩

/-- A top-level `error_kind` attribute whose first argument is a literal. -/
def c3w3 : DeriveInput := ⟨"T3", [errorKindAttr [.notPath]], .enumData []⟩

/-- An enum with a variant whose single annotation argument is a literal. -/
def c4LitInput : DeriveInput :=
  ⟨"E4", [errorKindAttr [.path "K"]],
    .enumData [⟨"A", [errorKindAttr [.path "K", .path "X"]], .unit⟩,
               ⟨"B", [errorKindAttr [.notPath]], .unit⟩]⟩

/-- First variant of `c4DropInput`: an ordinary `Direct` annotation. -/
def vA4 : Variant := ⟨"A", [errorKindAttr [.path "K", .path "X"]], .unit⟩

/-- Second variant of `c4DropInput`: one path argument that is not
`transparent`. -/
def vB4 : Variant := ⟨"B", [errorKindAttr [.path "bogus"]], .unit⟩

/-- An enum whose second variant is silently dropped from the plan. -/
def c4DropInput : DeriveInput :=
  ⟨"E4b", [errorKindAttr [.path "K"]], .enumData [vA4, vB4]⟩

/-- An enum whose variants name two different kind enums. -/
def c5Input : DeriveInput :=
  ⟨"E5", [errorKindAttr [.path "TopK"]],
    .enumData [⟨"V1", [errorKindAttr [.path "K1", .path "A"]], .unit⟩,
               ⟨"V2", [errorKindAttr [.path "K2", .path "B"]], .unit⟩]⟩

/-- Generated implementation for `c5Input`: the return type comes from the
first variant only, divergent kind enums are not detected. -/
def gC5 : GenOutput :=
  ⟨"E5", "K1",
    [.unitArm "V1" "K1" (some "A"), .unitArm "V2" "K2" (some "B")]⟩

/-- A struct carrying no attributes. -/
def structNoAttr : DeriveInput := ⟨"S6", [], .structData⟩

/-- A struct carrying a well-formed top-level `error_kind` attribute. -/
def structWithAttr : DeriveInput :=
  ⟨"S6b", [errorKindAttr [.path "K"]], .structData⟩

/-- An enum with one variant that has no attributes. -/
def c7Input : DeriveInput :=
  ⟨"E7", [errorKindAttr [.path "K"]], .enumData [⟨"A", [], .unit⟩]⟩

/-- An enum with a three-argument variant annotation. -/
def c8aInput : DeriveInput :=
  ⟨"E8a", [errorKindAttr [.path "K"]],
    .enumData
      [⟨"A", [errorKindAttr [.path "K", .path "X", .path "Y"]], .unit⟩]⟩

/-- An enum with a two-argument variant annotation whose second argument is
a literal. -/
def c8bInput : DeriveInput :=
  ⟨"E8b", [errorKindAttr [.path "K"]],
    .enumData [⟨"A", [errorKindAttr [.path "K", .notPath]], .unit⟩]⟩

/-- An enum declaring zero variants, with a valid top-level annotation. -/
def c9Input : DeriveInput :=
  ⟨"E9", [errorKindAttr [.path "K"]], .enumData []⟩

/-- Two top-level `error_kind` attributes: the first does not parse as a
list, the second names `Foo`. -/
def c10aInput : DeriveInput :=
  ⟨"Svc", [⟨"error_kind", .notList⟩, errorKindAttr [.path "Foo"]],
    .enumData [⟨"Cache", [errorKindAttr [.path "transparent"]], .unnamed 1⟩]⟩

/-- Identical to `c10aInput` except the second attribute names `Bar`. -/
def c10bInput : DeriveInput :=
  ⟨"Svc", [⟨"error_kind", .notList⟩, errorKindAttr [.path "Bar"]],
    .enumData [⟨"Cache", [errorKindAttr [.path "transparent"]], .unnamed 1⟩]⟩

/-! ## Claim theorems -/

/-- C1: for an enum accepted by the macro, a variant carrying a two-path
`#[error_kind(K, V)]` (Direct) annotation is classified as exactly the
literal `K::V` recorded for it, whatever the variant's field shape (the
theorem places no constraint on `v.fields`) and whatever runtime values the
fields hold (`args` is arbitrary). -/
theorem direct_variant_kind {input : DeriveInput} {vs : List Variant}
    {v : Variant} {attr : Attribute} {g : GenOutput} {K W : String}
    (hdata : input.data = .enumData vs)
    (hnd : (vs.map (fun u => u.ident)).Nodup)
    (hok : error_kind_macro input = .ok g)
    (hv : v ∈ vs)
    (hfind : v.attrs.find? (fun a => a.name == "error_kind") = some attr)
    (hmeta : attr.meta = .list [.path K, .path W]) :
    ∀ (ty : String) (prog : Prog), lookupImpl prog ty = some g →
      ∀ (args : List RValue) (n : Nat),
        kindOf prog (n + 1) (.mk ty v.ident args) = some (K, W) := by
  obtain ⟨kty, vs', plan, e, hk, hd', hp, hh, ha, _, _⟩ := macro_ok_parts hok
  rw [hdata] at hd'
  injection hd' with hd'
  subst hd'
  have hread : readVariant kty v = .ok (some ⟨v.ident, K, some W⟩) :=
    readVariant_direct kty K W hfind hmeta
  have heval := evalArms_of_entry hp ha hnd hv hread
  intro ty prog hlook args n
  simp only [kindOf, hlook]
  rw [heval args (kindOf prog n)]
  rcases hfld : v.fields with _ | _ | m <;> simp [genArm, evalArm]

/-- C1 witness: the crate-documentation enum `MyError`; the named-fields
variant `BadRequest` with a nonempty field payload is classified as
`ErrorKind::InvalidInput`. -/
theorem direct_variant_kind_witness :
    error_kind_macro myErrorInput = .ok gMyError ∧
    kindOf [("MyError", gMyError)] 1
        (.mk "MyError" "BadRequest" [.mk "String" "s" []])
      = some ("ErrorKind", "InvalidInput") :=
  ⟨rfl,
    @direct_variant_kind myErrorInput
      [vResourceNotFound, vBadRequest, vServerError] vBadRequest
      (errorKindAttr [.path "ErrorKind", .path "InvalidInput"]) gMyError
      "ErrorKind" "InvalidInput" rfl (by decide) rfl (by decide) rfl rfl
      "MyError" [("MyError", gMyError)] rfl [.mk "String" "s" []] 0⟩

/-- C2: a variant annotated `#[error_kind(transparent)]` with exactly one
unnamed field delegates: running the generated method on the wrapping value
gives exactly the result of running `kind` on the wrapped inner value (at
one less fuel). Nested delegation follows by applying the theorem at each
level; the witness exercises the spec's two-level concrete scenario. -/
theorem transparent_delegates {input : DeriveInput} {vs : List Variant}
    {v : Variant} {attr : Attribute} {g : GenOutput}
    (hdata : input.data = .enumData vs)
    (hnd : (vs.map (fun u => u.ident)).Nodup)
    (hok : error_kind_macro input = .ok g)
    (hv : v ∈ vs)
    (hfind : v.attrs.find? (fun a => a.name == "error_kind") = some attr)
    (hmeta : attr.meta = .list [.path "transparent"])
    (hfld : v.fields = .unnamed 1) :
    ∀ (ty : String) (prog : Prog), lookupImpl prog ty = some g →
      ∀ (inner : RValue) (n : Nat),
        kindOf prog (n + 1) (.mk ty v.ident [inner])
          = kindOf prog n inner := by
  obtain ⟨kty, vs', plan, e, hk, hd', hp, hh, ha, _, _⟩ := macro_ok_parts hok
  rw [hdata] at hd'
  injection hd' with hd'
  subst hd'
  have hread : readVariant kty v = .ok (some ⟨v.ident, kty, none⟩) :=
    readVariant_transparent kty hfind hmeta
  have heval := evalArms_of_entry hp ha hnd hv hread
  intro ty prog hlook inner n
  simp only [kindOf, hlook]
  rw [heval [inner] (kindOf prog n), hfld]
  rfl

/-- C2 witness: the spec's concrete scenario; classifying
`ServiceError::Cache(CacheError::Missing)` delegates to the inner value and
yields `ErrorType::B`. -/
theorem transparent_delegates_witness :
    error_kind_macro serviceInput = .ok gService ∧
    error_kind_macro cacheInput = .ok gCache ∧
    kindOf svcProg 2 (.mk "ServiceError" "Cache" [.mk "CacheError" "Missing" []])
      = some ("ErrorType", "B") :=
  ⟨rfl, rfl,
    Eq.trans
      (@transparent_delegates serviceInput [vCache, vDb] vCache
        (errorKindAttr [.path "transparent"]) gService rfl (by decide) rfl
        (by decide) rfl rfl rfl "ServiceError" svcProg rfl
        (.mk "CacheError" "Missing" []) 1)
      rfl⟩

/-- C3 counterexample: a union-level annotation with two arguments does not
abort generation — the macro silently succeeds, taking the first argument
`K` as the kind reference and ignoring the second. -/
theorem toplevel_two_args_accepted :
    error_kind_macro c3TwoArgInput
      = .ok ⟨"Foo", "K", [.unitArm "V" "K" (some "A")]⟩ := rfl

/-- C3 (amended): generation aborts when the union-level annotation is
absent, has zero arguments, or has a first argument that is not a path; but
an annotation with two or more arguments whose first argument is a path is
accepted — `get_kind_ty` returns the first argument and the rest are never
inspected. -/
theorem toplevel_attr_check (input : DeriveInput) :
    (find_attribute input "error_kind" = none →
      isOkE ( error_kind_macro input) = false)
    ∧ (find_attribute input "error_kind" = some [] →
      isOkE ( error_kind_macro input) = false)
    ∧ (∀ rest, find_attribute input "error_kind" = some (.notPath :: rest) →
      isOkE ( error_kind_macro input) = false)
    ∧ (∀ p rest, find_attribute input "error_kind" = some (.path p :: rest) →
      get_kind_ty input = .ok p) := by
  refine ⟨?_, ?_, ?_, ?_⟩
  · intro h
    have hk : get_kind_ty input
        = .error "#[derive(ErrorKind)] requires error_kind attribute" := by
      simp only [get_kind_ty, h]
    rw [macro_error_of_get_kind_ty hk]
    rfl
  · intro h
    have hk : get_kind_ty input
        = .error "#[error_kind(KIND_IDENT)] attribute requires and identifier" := by
      simp only [get_kind_ty, h, List.head?]
    rw [macro_error_of_get_kind_ty hk]
    rfl
  · intro rest h
    have hk : get_kind_ty input
        = .error "#[error_kind(KIND_IDENT)] attribute requires and identifier" := by
      simp only [get_kind_ty, h, List.head?]
    rw [macro_error_of_get_kind_ty hk]
    rfl
  · intro p rest h
    simp only [get_kind_ty, h, List.head?]

/-- C3 witness: the three aborting shapes at concrete inputs, and the
accepting two-argument shape on `c3TwoArgInput`. -/
theorem toplevel_attr_check_witness :
    isOkE ( error_kind_macro c3w1) = false
    ∧ isOkE ( error_kind_macro c3w2) = false
    ∧ isOkE ( error_kind_macro c3w3) = false
    ∧ get_kind_ty c3TwoArgInput = .ok "K" :=
  ⟨(toplevel_attr_check c3w1).1 rfl,
   (toplevel_attr_check c3w2).2.1 rfl,
   (toplevel_attr_check c3w3).2.2.1 [] rfl,
   (toplevel_attr_check c3TwoArgInput).2.2.2 "K" [.path "K2"] rfl⟩

/-- C4 counterexample: a variant annotation with exactly one argument that
is not the identifier `transparent` — here a literal — aborts generation
with an error, contradicting the claim that every such variant is silently
dropped without error. -/
theorem one_arg_lit_errors :
    error_kind_macro c4LitInput = .error "Invalid value for #[error_kind]" :=
  rfl

/-- C4 (amended): a variant annotation with exactly one *path* argument
other than `transparent` produces no plan entry and no error — the variant
is silently dropped, and the generated match has no arm for it; a single
non-path argument instead aborts generation (see the counterexample). -/
theorem one_arg_path_dropped {input : DeriveInput} {vs : List Variant}
    {v : Variant} {attr : Attribute} {p : String}
    (hdata : input.data = .enumData vs)
    (hnd : (vs.map (fun u => u.ident)).Nodup)
    (hv : v ∈ vs)
    (hfind : v.attrs.find? (fun a => a.name == "error_kind") = some attr)
    (hmeta : attr.meta = .list [.path p])
    (hp : p ≠ "transparent") :
    (∀ kty, readVariant kty v = .ok none)
    ∧ ∀ g, error_kind_macro input = .ok g →
        ∀ a ∈ g.arms, a.matchIdent ≠ v.ident := by
  have hdrop : ∀ kty, readVariant kty v = .ok none :=
    fun kty => readVariant_dropped kty p hfind hmeta hp
  refine ⟨hdrop, ?_⟩
  intro g hok a ha hcontra
  obtain ⟨kty, vs', plan, e, hk, hd', hplan, hh, harms, _, _⟩ :=
    macro_ok_parts hok
  rw [hdata] at hd'
  injection hd' with hd'
  subst hd'
  obtain ⟨e', he', hid⟩ := mkArms_mem_ident harms a ha
  obtain ⟨u, hu, hru⟩ := buildPlan_mem_inv hplan e' he'
  have huid : e'.ident = u.ident := (readVariant_some_inv hru).1
  have huv : u = v := by
    refine List.inj_on_of_nodup_map hnd hu hv ?_
    rw [← huid, ← hid, hcontra]
  rw [huv, hdrop kty] at hru
  injection hru with hru
  exact Option.noConfusion hru

/-- C4 witness: in `c4DropInput` the `bogus`-annotated variant `B` yields no
plan entry and no error; the macro succeeds with a match containing only the
arm for `A`. -/
theorem one_arg_path_dropped_witness :
    readVariant "K" vB4 = .ok none
    ∧ error_kind_macro c4DropInput
        = .ok ⟨"E4b", "K", [.unitArm "A" "K" (some "X")]⟩ :=
  ⟨(@one_arg_path_dropped c4DropInput [vA4, vB4] vB4
      (errorKindAttr [.path "bogus"]) "bogus" rfl (by decide) (by decide)
      rfl rfl (by decide)).1 "K",
   rfl⟩

/-- C5: the generated method's declared return type is the kind-enum path
of the first plan entry: a `Direct`-first plan contributes its annotation's
first path argument (third conjunct: a `Direct` annotation records `K` as
the entry's kind-enum path), a `Delegate`-first plan contributes the
top-level kind reference (second conjunct); entries after the first never
reach the return type. -/
theorem return_ty_from_first_entry {input : DeriveInput} {g : GenOutput}
    {kty : String} {vs : List Variant} {plan : List PlanEntry} {e : PlanEntry}
    (hok : error_kind_macro input = .ok g)
    (hk : get_kind_ty input = .ok kty)
    (hdata : input.data = .enumData vs)
    (hplan : buildPlan kty vs = .ok plan)
    (hhead : plan.head? = some e) :
    g.retTy = e.enumTy
    ∧ (e.kindVariant = none → e.enumTy = kty)
    ∧ (∀ (v : Variant) (attr : Attribute) (K W : String),
        v.attrs.find? (fun a => a.name == "error_kind") = some attr →
        attr.meta = .list [.path K, .path W] →
        readVariant kty v = .ok (some ⟨v.ident, K, some W⟩)) := by
  obtain ⟨kty', vs', plan', e', hk', hd', hp', hh', _, _, hret⟩ :=
    macro_ok_parts hok
  rw [hk] at hk'
  injection hk' with hk'
  subst hk'
  rw [hdata] at hd'
  injection hd' with hd'
  subst hd'
  rw [hplan] at hp'
  injection hp' with hp'
  subst hp'
  rw [hhead] at hh'
  injection hh' with hh'
  subst hh'
  refine ⟨hret, ?_, ?_⟩
  · intro hdel
    have hmem : e ∈ plan := by
      rcases plan with _ | ⟨x, xs⟩
      · exact absurd hhead (by simp)
      · simp only [List.head?] at hhead
        injection hhead with hx
        rw [← hx]
        exact List.mem_cons_self _ _
    exact buildPlan_delegate_enumTy hplan e hmem hdel
  · intro v attr K W hf hm
    exact readVariant_direct kty K W hf hm

/-- C5 witness: in `c5Input` the two variants name divergent kind enums
`K1` and `K2`; generation succeeds anyway and the return type is the first
entry's `K1`. -/
theorem return_ty_from_first_entry_witness :
    error_kind_macro c5Input = .ok gC5 ∧ gC5.retTy = "K1" :=
  ⟨rfl,
    (@return_ty_from_first_entry c5Input gC5 "TopK"
      [⟨"V1", [errorKindAttr [.path "K1", .path "A"]], .unit⟩,
       ⟨"V2", [errorKindAttr [.path "K2", .path "B"]], .unit⟩]
      [⟨"V1", "K1", some "A"⟩, ⟨"V2", "K2", some "B"⟩]
      ⟨"V1", "K1", some "A"⟩ rfl rfl rfl rfl rfl).1⟩

/-- C6 counterexample: a struct with no `error_kind` attribute aborts with
the missing-annotation message, not with a message naming the enum-only
restriction — `get_kind_ty` runs before the enum check. -/
theorem non_enum_missing_attr_msg :
    error_kind_macro structNoAttr
      = .error "#[derive(ErrorKind)] requires error_kind attribute" := rfl

/-- C6 (amended): any non-enum input aborts generation — nothing is ever
generated — and the error names the enum-only restriction exactly when the
union-level annotation check succeeds first; otherwise the abort carries the
union-level annotation error (see the counterexample). -/
theorem non_enum_rejected {input : DeriveInput}
    (h : input.data.isEnum = false) :
    isOkE ( error_kind_macro input) = false
    ∧ (∀ kty, get_kind_ty input = .ok kty →
        error_kind_macro input = .error "ImplKind just can be used in enums") := by
  constructor
  · rcases hk : get_kind_ty input with s | kty
    · rw [macro_error_of_get_kind_ty hk]
      rfl
    · simp only [ error_kind_macro, hk]
      rcases hd : input.data with vs | _ | _
      · rw [hd] at h
        exact absurd h (by simp [Data.isEnum])
      · simp only [hd]
        rfl
      · simp only [hd]
        rfl
  · intro kty hk
    simp only [ error_kind_macro, hk]
    rcases hd : input.data with vs | _ | _
    · rw [hd] at h
      exact absurd h (by simp [Data.isEnum])
    · simp only [hd]
    · simp only [hd]

/-- C6 witness: a struct whose top-level annotation is valid reaches the
enum check and aborts with the enum-only message. -/
theorem non_enum_rejected_witness :
    isOkE ( error_kind_macro structWithAttr) = false
    ∧ error_kind_macro structWithAttr
        = .error "ImplKind just can be used in enums" :=
  ⟨(@non_enum_rejected structWithAttr rfl).1,
   (@non_enum_rejected structWithAttr rfl).2 "K" rfl⟩

/-- C7: a variant carrying no `error_kind` attribute aborts generation:
the macro never returns a generated method for such an enum, so there is no
partial or degraded output. -/
theorem missing_variant_attr_fails {input : DeriveInput} {vs : List Variant}
    {v : Variant}
    (hdata : input.data = .enumData vs)
    (hv : v ∈ vs)
    (hfind : v.attrs.find? (fun a => a.name == "error_kind") = none) :
    isOkE ( error_kind_macro input) = false := by
  apply macro_not_ok_of_buildPlan hdata
  intro kty
  apply buildPlan_not_ok_of_mem hv
  rw [readVariant_missing kty hfind]
  rfl

/-- C7 witness: an enum whose only variant has no attributes. -/
theorem missing_variant_attr_fails_witness :
    isOkE ( error_kind_macro c7Input) = false :=
  @missing_variant_attr_fails c7Input [⟨"A", [], .unit⟩] ⟨"A", [], .unit⟩
    rfl (by decide) rfl

/-- C8: a variant annotation whose argument count is neither one nor two
aborts generation, and a two-argument annotation aborts whenever either
argument is not a path. -/
theorem bad_arity_fails {input : DeriveInput} {vs : List Variant}
    {v : Variant} {attr : Attribute} {args : List NestedMeta}
    (hdata : input.data = .enumData vs)
    (hv : v ∈ vs)
    (hfind : v.attrs.find? (fun a => a.name == "error_kind") = some attr)
    (hmeta : attr.meta = .list args)
    (hbad : (args.length ≠ 1 ∧ args.length ≠ 2) ∨
      ∃ a b, args = [a, b] ∧ (a.isPath = false ∨ b.isPath = false)) :
    isOkE ( error_kind_macro input) = false := by
  apply macro_not_ok_of_buildPlan hdata
  intro kty
  apply buildPlan_not_ok_of_mem hv
  have hrv : readVariant kty v = parseArgs kty v.ident args := by
    simp only [readVariant, hfind, hmeta]
  rw [hrv]
  exact parseArgs_not_ok_of_bad hbad

/-- C8 witness: a three-argument annotation and a two-argument annotation
with a literal second argument both abort. -/
theorem bad_arity_fails_witness :
    isOkE ( error_kind_macro c8aInput) = false
    ∧ isOkE ( error_kind_macro c8bInput) = false :=
  ⟨@bad_arity_fails c8aInput
      [⟨"A", [errorKindAttr [.path "K", .path "X", .path "Y"]], .unit⟩]
      ⟨"A", [errorKindAttr [.path "K", .path "X", .path "Y"]], .unit⟩
      (errorKindAttr [.path "K", .path "X", .path "Y"])
      [.path "K", .path "X", .path "Y"] rfl (by decide) rfl rfl
      (Or.inl (by decide)),
   @bad_arity_fails c8bInput
      [⟨"A", [errorKindAttr [.path "K", .notPath]], .unit⟩]
      ⟨"A", [errorKindAttr [.path "K", .notPath]], .unit⟩
      (errorKindAttr [.path "K", .notPath]) [.path "K", .notPath] rfl
      (by decide) rfl rfl (Or.inr ⟨.path "K", .notPath, rfl, Or.inr rfl⟩)⟩

/-- C9: an enum that declares zero variants and passes the union-level
annotation check aborts at the first-plan-entry lookup with the
`.first().expect` panic message; no method is emitted. -/
theorem empty_enum_fails {input : DeriveInput} {kty : String}
    (hdata : input.data = .enumData [])
    (hk : get_kind_ty input = .ok kty) :
    error_kind_macro input = .error "No variants in Enum" := by
  simp only [ error_kind_macro, hk, hdata]
  rfl

/-- C9 witness: a zero-variant enum with a valid top-level annotation. -/
theorem empty_enum_fails_witness :
    error_kind_macro c9Input = .error "No variants in Enum" :=
  @empty_enum_fails c9Input "K" rfl rfl

/-- C10 counterexample: `c10aInput` and `c10bInput` differ only in the
*second* top-level `error_kind` attribute (the first does not parse as a
list), yet the generated methods differ — return type `Foo` versus `Bar` —
so an `error_kind` attribute after the first one is consulted and does
affect the generated method. -/
theorem second_toplevel_attr_used :
    error_kind_macro c10aInput
      = .ok ⟨"Svc", "Foo", [.unnamedDelegate "Cache"]⟩
    ∧ error_kind_macro c10bInput
      = .ok ⟨"Svc", "Bar", [.unnamedDelegate "Cache"]⟩ :=
  ⟨rfl, rfl⟩

/-- C10 (amended): at the variant level the first `error_kind` attribute in
declaration order is consulted and attributes after it are ignored (third
conjunct); at the enum level the first `error_kind` attribute *that parses
as a list* is consulted — non-list ones before it are skipped rather than
reported (first conjunct) — and attributes after the consulted one are
ignored (second conjunct). -/
theorem first_list_attr_rule :
    (∀ (i : String) (a : Attribute) (attrs : List Attribute) (d : Data)
        (nm : String), a.meta = .notList →
        find_attribute ⟨i, a :: attrs, d⟩ nm = find_attribute ⟨i, attrs, d⟩ nm)
    ∧ (∀ (i : String) (attrs extra : List Attribute) (d : Data) (nm : String)
        (metas : List NestedMeta),
        find_attribute ⟨i, attrs, d⟩ nm = some metas →
        find_attribute ⟨i, attrs ++ extra, d⟩ nm = some metas)
    ∧ (∀ (kty : String) (v : Variant) (extra : List Attribute)
        (attr : Attribute),
        v.attrs.find? (fun a => a.name == "error_kind") = some attr →
        readVariant kty ⟨v.ident, v.attrs ++ extra, v.fields⟩
          = readVariant kty v) := by
  refine ⟨?_, ?_, ?_⟩
  · intro i a attrs d nm h
    simp only [find_attribute, List.findSome?_cons, h]
  · intro i attrs extra d nm metas h
    simp only [find_attribute] at h ⊢
    exact findSome?_append_some h
  · intro kty v extra attr h
    have h2 : (v.attrs ++ extra).find? (fun a => a.name == "error_kind")
        = some attr := find?_append_some h
    simp only [readVariant, h, h2]

/-- C10 witness: the three conjuncts at concrete inputs — a skipped
non-list attribute, an ignored second list attribute, and an ignored extra
variant attribute. -/
theorem first_list_attr_rule_witness :
    find_attribute
        ⟨"T", [⟨"error_kind", .notList⟩, errorKindAttr [.path "Foo"]],
          .structData⟩ "error_kind"
      = find_attribute ⟨"T", [errorKindAttr [.path "Foo"]], .structData⟩
          "error_kind"
    ∧ find_attribute
        ⟨"T", [errorKindAttr [.path "Foo"], errorKindAttr [.path "Bar"]],
          .structData⟩ "error_kind"
      = some [.path "Foo"]
    ∧ readVariant "K"
        ⟨"V", [errorKindAttr [.path "K", .path "A"],
               errorKindAttr [.path "K", .path "B"]], .unit⟩
      = readVariant "K" ⟨"V", [errorKindAttr [.path "K", .path "A"]], .unit⟩ :=
  ⟨first_list_attr_rule.1 "T" ⟨"error_kind", .notList⟩
      [errorKindAttr [.path "Foo"]] .structData "error_kind" rfl,
   first_list_attr_rule.2.1 "T" [errorKindAttr [.path "Foo"]]
      [errorKindAttr [.path "Bar"]] .structData "error_kind" [.path "Foo"]
      rfl,
   first_list_attr_rule.2.2 "K"
      ⟨"V", [errorKindAttr [.path "K", .path "A"]], .unit⟩
      [errorKindAttr [.path "K", .path "B"]]
      (errorKindAttr [.path "K", .path "A"]) rfl⟩

end DeriveErrorKind
